import Mathlib

/-!
Verification development for the EnsoAI Session & Resolution Subsystem.

The definitions below are a shallow embedding of the TypeScript sources:

* `src/main/services/terminal/PtyManager.ts` — the PTY session manager
  (`getEnhancedPath`, `PtyManager.create/write/resize/destroy/destroyAll`
  and the `onExit` handler installed by `create`);
* `src/shared/types/shell.ts`, `src/shared/types/terminal.ts` — data types;
* the shell resolver (`ShellDetector.resolveShellConfig`, `detectShell`) and
  the agent CLI detector (`CliDetector.detectAll`), whose source files are not
  part of the provided tree, are modelled from the specification text; each
  such definition carries a doc comment starting with `Modelled from the spec:`.

JavaScript idioms are embedded explicitly: `a || b` with string/number
falsiness, object spread with later-keys-win lookup, `new Set(...)`
first-occurrence deduplication, and template interpolation of a number
into a decimal string.
-/

/-! ## JavaScript-semantics primitives -/

/-- Embedding of the JS string expression `a || b`: the empty string is falsy. -/
def jsOr (a b : String) : String := if a = "" then b else a

/-- Embedding of `o || d` where `o` is a possibly-`undefined` string
(`undefined` and `""` are falsy). -/
def jsOrS (o : Option String) (d : String) : String :=
  match o with
  | none => d
  | some s => if s = "" then d else s

/-- Embedding of `o || d` where `o` is a possibly-`undefined` number
(`undefined` and `0` are falsy; negative numbers are truthy). -/
def jsOrI (o : Option Int) (d : Int) : Int :=
  match o with
  | none => d
  | some n => if n = 0 then d else n

/-- Embedding of a JS object as an insertion-ordered association list.
Lookup follows spread semantics: a later entry overrides an earlier one,
so the tail of the list is consulted first. -/
def jsGet : List (String × String) → String → Option String
  | [], _ => none
  | p :: rest, k =>
    match jsGet rest k with
    | some v => some v
    | none => if p.1 = k then some p.2 else none

/-- Embedding of `process.env.X` read as a string: a missing variable behaves
as the falsy empty string under `||`. -/
def envStr (e : List (String × String)) (k : String) : String :=
  (jsGet e k).getD ""

/-- Helper for `jsSetDedup`: keeps the first occurrence of each element,
skipping anything already seen. -/
def jsSetDedupAux (seen : List String) : List String → List String
  | [] => []
  | x :: xs => if x ∈ seen then jsSetDedupAux seen xs else x :: jsSetDedupAux (x :: seen) xs

/-- Embedding of `[...new Set(l)]`: deduplication keeping first occurrences
in order. -/
def jsSetDedup (l : List String) : List String := jsSetDedupAux [] l

/-! ## Decimal rendering of a JS number (template interpolation) -/

/-- Decimal digit to character. -/
def charOfDigit (d : Nat) : Char :=
  match d with
  | 0 => '0' | 1 => '1' | 2 => '2' | 3 => '3' | 4 => '4'
  | 5 => '5' | 6 => '6' | 7 => '7' | 8 => '8' | _ => '9'

/-- Numeric value of a decimal digit character. -/
def digitVal (c : Char) : Nat := c.toNat - 48

/-- Accumulating decimal printer (most significant digit first); any
`fuel ≥ n` yields the digits of `n`, and the structural recursion on the fuel
keeps the definition kernel-reducible. -/
def toDecAux : Nat → Nat → List Char → List Char
  | 0, _, acc => acc
  | _ + 1, 0, acc => acc
  | fuel + 1, n + 1, acc => toDecAux fuel ((n + 1) / 10) (charOfDigit ((n + 1) % 10) :: acc)

/-- Decimal digit list of a JS number (as produced by template interpolation). -/
def decDigits (n : Nat) : List Char := if n = 0 then ['0'] else toDecAux n n []

/-- Decimal string of a JS number. -/
def natToDec (n : Nat) : String := String.mk (decDigits n)

/-- Embedding of the session-id template `pty-${n}` from `PtyManager.create`. -/
def mkId (n : Nat) : String := String.mk ('p' :: 't' :: 'y' :: '-' :: decDigits n)

/-- Decoder used only in proofs: value of a digit list under accumulator `a`. -/
def decValFrom : List Char → Nat → Nat
  | [], a => a
  | c :: cs, a => decValFrom cs (a * 10 + digitVal c)

/-! ## Data model (src/shared/types/shell.ts, src/shared/types/terminal.ts) -/

/-- Embedding of `ShellConfig` (src/shared/types/shell.ts); the `shellType`
union of string literals is embedded as a string. -/
structure ShellConfig where
  shellType : String
  customShellPath : Option String := none
  customShellArgs : Option (List String) := none
deriving Repr, DecidableEq

/-- Resolved launch descriptor returned by the shell resolver (the spec's
`ShellSpec`). -/
structure ShellSpec where
  shell : String
  args : List String
  isWsl : Bool := false
deriving Repr, DecidableEq

/-- Embedding of `TerminalCreateOptions` (src/shared/types/terminal.ts);
`env` is a JS object embedded as an insertion-ordered association list. -/
structure TerminalCreateOptions where
  cwd : Option String := none
  shell : Option String := none
  args : Option (List String) := none
  cols : Option Int := none
  rows : Option Int := none
  env : List (String × String) := []
  shellConfig : Option ShellConfig := none
deriving Repr, DecidableEq

/-- Ambient host state read by the manager: `process.platform` (as the
`isWindows` flag), `process.env`, and `os.homedir()`. -/
structure Host where
  isWindows : Bool
  procEnv : List (String × String)
  homedir : String
deriving Repr, DecidableEq

/-- Path-segment separator of `node:path.join`, per platform. -/
def pathSep (host : Host) : String := if host.isWindows then "\\" else "/"

/-- Embedding of `node:path.join` on plain segments (no `.` or `..` entries
occur in the source's uses). -/
def pathJoin (host : Host) (parts : List String) : String :=
  String.intercalate (pathSep host) parts

/-- Embedding of `node:path.delimiter`. -/
def pathDelim (host : Host) : String := if host.isWindows then ";" else ":"

/-- Embedding of `process.env.HOME || process.env.USERPROFILE || homedir()`
as computed in `PtyManager.create` and `getEnhancedPath`. -/
def homeOf (host : Host) : String :=
  jsOr (envStr host.procEnv "HOME") (jsOr (envStr host.procEnv "USERPROFILE") host.homedir)

/-- The per-platform `additionalPaths` arrays of `getEnhancedPath`
(PtyManager.ts lines 16-42). -/
def additionalPaths (host : Host) : List String :=
  if host.isWindows then
    [pathJoin host [homeOf host, "AppData", "Roaming", "npm"],
     pathJoin host [homeOf host, ".volta", "bin"],
     pathJoin host [homeOf host, "scoop", "shims"]]
  else
    ["/usr/local/bin",
     "/opt/homebrew/bin",
     "/opt/homebrew/sbin",
     pathJoin host [homeOf host, ".nvm", "versions", "node", "current", "bin"],
     pathJoin host [homeOf host, ".npm-global", "bin"],
     pathJoin host [homeOf host, ".local", "bin"]]

/-- Embedding of `getEnhancedPath` (PtyManager.ts lines 16-42): prepends the
per-platform tool directories to the inherited `PATH` split on the platform
delimiter, deduplicated via `new Set`, and joins the result back. -/
def getEnhancedPath (host : Host) : String :=
  String.intercalate (pathDelim host)
    (jsSetDedup (additionalPaths host ++ (envStr host.procEnv "PATH").splitOn (pathDelim host)))

/-! ## Shell resolver (modelled from the spec; `ShellDetector.ts` is not among
the provided sources — only its callers are) -/

/-- Modelled from the spec: `detectShell` of `ShellDetector.ts` (file missing
from the tree). Spec §4.1 step (3): the ambient default shell is read from an
environment variable on Unix-like systems and is a fixed system shell on
Windows. -/
def detectShell (host : Host) : String :=
  if host.isWindows then "powershell.exe"
  else jsOr (envStr host.procEnv "SHELL") "/bin/bash"

/-- Default `ShellSpec` used when resolution degrades (spec §4.1 step (3)). -/
def defaultShellSpec (host : Host) : ShellSpec :=
  { shell := detectShell host, args := [], isWsl := false }

/-- First-match association-list lookup (embedding of `Map.get`; the maps in
this development never hold duplicate keys). -/
def alistGet {α : Type} : List (String × α) → String → Option α
  | [], _ => none
  | p :: rest, k => if p.1 = k then some p.2 else alistGet rest k

/-- Modelled from the spec: the per-platform table of known shell selectors
(`ShellDetector.ts` is missing from the tree). Spec §4.1 step (2): each
structured selector maps to a platform-specific known install location with
default login/interactive arguments; a WSL selector resolves to the WSL
launcher. Selector names follow `WindowsShellType`/`UnixShellType` in
src/shared/types/shell.ts. -/
def knownShellTable (host : Host) : List (String × ShellSpec) :=
  if host.isWindows then
    [("powershell7", { shell := "pwsh.exe", args := [] }),
     ("powershell", { shell := "powershell.exe", args := [] }),
     ("cmd", { shell := "cmd.exe", args := [] }),
     ("gitbash", { shell := "C:\\Program Files\\Git\\bin\\bash.exe", args := ["-l"] }),
     ("nushell", { shell := "nu.exe", args := [] }),
     ("wsl", { shell := "wsl.exe", args := [], isWsl := true })]
  else
    [("system", { shell := detectShell host, args := ["-l"] }),
     ("zsh", { shell := "/bin/zsh", args := ["-l"] }),
     ("bash", { shell := "/bin/bash", args := ["-l"] }),
     ("fish", { shell := "/usr/bin/fish", args := ["-l"] }),
     ("nushell", { shell := "/usr/bin/nu", args := ["-l"] }),
     ("sh", { shell := "/bin/sh", args := [] })]

/-- Modelled from the spec: selector-table step of `resolveShellConfig`
(spec §4.1 steps (2) and (3)): a known selector resolves through the platform
table, an unknown one degrades to the platform default. -/
def resolveSelector (host : Host) (cfg : ShellConfig) : ShellSpec :=
  match alistGet (knownShellTable host) cfg.shellType with
  | some sp => sp
  | none => defaultShellSpec host

/-- Modelled from the spec: `resolveShellConfig` of `ShellDetector.ts` (file
missing from the tree). Spec §4.1: (1) an explicitly supplied custom shell path
is used verbatim with the supplied arguments (JS-truthy: an empty path is falsy
and falls through); (2)-(3) otherwise the selector resolves through
`resolveSelector`. Total by construction: an unknown selector never throws. -/
def resolveShellConfig (host : Host) (cfg : ShellConfig) : ShellSpec :=
  match cfg.customShellPath with
  | some p =>
    if p = "" then resolveSelector host cfg
    else { shell := p, args := cfg.customShellArgs.getD [], isWsl := false }
  | none => resolveSelector host cfg

/-! ## PTY session manager (src/main/services/terminal/PtyManager.ts) -/

/-- State of one spawned pseudo-terminal process as observable through the
`node-pty` handle: the spawn arguments, the live geometry, the bytes written,
whether `kill()` was called, and whether the OS exit event has fired. -/
structure PtyProc where
  shell : String
  args : List String
  cols : Int
  rows : Int
  cwd : String
  env : List (String × String)
  written : List String
  killed : Bool
  exited : Bool
deriving Repr, DecidableEq

/-- Shell/args selection of `PtyManager.create` when `options.shell` is not
JS-truthy: the `options.shellConfig` branch, else `detectShell()` with the
supplied args. -/
def chooseShellNoExplicit (host : Host) (options : TerminalCreateOptions) : String × List String :=
  match options.shellConfig with
  | some cfg =>
    let r := resolveShellConfig host cfg
    (r.shell, r.args)
  | none => (detectShell host, options.args.getD [])

/-- Shell/args selection of `PtyManager.create` (lines 57-70): `if
(options.shell)` is JS truthiness, so an empty string falls through. -/
def chooseShell (host : Host) (options : TerminalCreateOptions) : String × List String :=
  match options.shell with
  | some s => if s = "" then chooseShellNoExplicit host options else (s, options.args.getD [])
  | none => chooseShellNoExplicit host options

/-- The process handed to `pty.spawn` by `PtyManager.create` (lines 72-84):
geometry defaults via JS `||`, cwd `options.cwd || home`, and the spread-built
environment object (later keys override earlier ones under `jsGet`). -/
def spawnedProc (host : Host) (options : TerminalCreateOptions) : PtyProc :=
  { shell := (chooseShell host options).1
    args := (chooseShell host options).2
    cols := jsOrI options.cols 80
    rows := jsOrI options.rows 24
    cwd := jsOrS options.cwd (homeOf host)
    env := host.procEnv ++ options.env ++
      [("PATH", getEnhancedPath host), ("TERM", "xterm-256color"), ("COLORTERM", "truecolor")]
    written := []
    killed := false
    exited := false }

/-- Whole-manager state: the id counter, the session registry (the `Map`
keys), every pseudo-terminal ever spawned (keyed by session id; a pty object
outlives its registry entry because the exit handler closes over it), and the
ids whose `onExit` callback has been invoked. -/
structure MState where
  counter : Nat
  sessions : List String
  procs : List (String × PtyProc)
  exitNotified : List String
deriving Repr, DecidableEq

/-- Empty manager, as constructed by `new PtyManager()`. -/
def initState : MState :=
  { counter := 0, sessions := [], procs := [], exitNotified := [] }

/-- Update every entry under key `k` (with unique keys this is `Map` update
in place). -/
def alistUpd {α : Type} (l : List (String × α)) (k : String) (f : α → α) : List (String × α) :=
  l.map (fun p => if p.1 = k then (p.1, f p.2) else p)

/-- Embedding of `PtyManager.create` (lines 48-98): mints `pty-${++counter}`,
spawns the pty, registers the session, and returns the id. -/
def create (host : Host) (options : TerminalCreateOptions) (st : MState) : String × MState :=
  let id := mkId (st.counter + 1)
  (id,
    { counter := st.counter + 1
      sessions := st.sessions ++ [id]
      procs := st.procs ++ [(id, spawnedProc host options)]
      exitNotified := st.exitNotified })

/-- Embedding of `PtyManager.write` (lines 100-105): forwards the data to the
session's pty when the session exists, otherwise does nothing. -/
def write (id data : String) (st : MState) : MState :=
  if id ∈ st.sessions then
    { st with
      procs := alistUpd st.procs id (fun p => { p with written := p.written ++ [data] }) }
  else st

/-- Embedding of `PtyManager.resize` (lines 107-112): forwards `cols`/`rows`
to `pty.resize` unvalidated when the session exists, otherwise does nothing. -/
def resize (id : String) (cols rows : Int) (st : MState) : MState :=
  if id ∈ st.sessions then
    { st with
      procs := alistUpd st.procs id (fun p => { p with cols := cols, rows := rows }) }
  else st

/-- Embedding of `PtyManager.destroy` (lines 114-120): kills the pty and
removes the registry entry when the session exists, otherwise does nothing. -/
def destroy (id : String) (st : MState) : MState :=
  if id ∈ st.sessions then
    { st with
      procs := alistUpd st.procs id (fun p => { p with killed := true })
      sessions := st.sessions.filter (fun s => !(s == id)) }
  else st

/-- Embedding of `PtyManager.destroyAll` (lines 122-126): destroys every
tracked session. -/
def destroyAll (st : MState) : MState :=
  st.sessions.foldl (fun s id => destroy id s) st

/-- Embedding of the exit handler installed by `create` (lines 90-93), fired
by the OS exit event of session `id`'s process: it deletes the registry entry
and invokes the session's `onExit` callback (recorded in `exitNotified`),
without checking whether the session is still registered. The underlying pty
emits its exit event at most once per process; a second delivery for an
already-exited process cannot occur and is embedded as a no-op guard. -/
def osExit (id : String) (st : MState) : MState :=
  match alistGet st.procs id with
  | none => st
  | some p =>
    if p.exited then st
    else
      { st with
        procs := alistUpd st.procs id (fun q => { q with exited := true })
        sessions := st.sessions.filter (fun s => !(s == id))
        exitNotified := st.exitNotified ++ [id] }

/-- External operations on a manager: API calls and OS exit-event deliveries,
in an arbitrary interleaving. -/
inductive Op where
  | create (options : TerminalCreateOptions)
  | write (id data : String)
  | resize (id : String) (cols rows : Int)
  | destroy (id : String)
  | destroyAll
  | osExit (id : String)
deriving Repr

/-- One step of the manager under operation `op`. -/
def step (host : Host) (st : MState) : Op → MState
  | .create options => (create host options st).2
  | .write id data => write id data st
  | .resize id cols rows => resize id cols rows st
  | .destroy id => destroy id st
  | .destroyAll => destroyAll st
  | .osExit id => osExit id st

/-- Run a list of operations, collecting the ids returned by the `create`
calls in order. -/
def runOps (host : Host) : List Op → MState → MState × List String
  | [], st => (st, [])
  | op :: rest, st =>
    let t := runOps host rest (step host st op)
    match op with
    | .create options => (t.1, (create host options st).1 :: t.2)
    | _ => t

/-! ## Agent CLI detector (modelled from the spec; `CliDetector.ts` is not
among the provided sources — only its caller `src/main/ipc/cli.ts` is) -/

/-- Embedding of `CustomAgent`: user-supplied agent definition, read-only
input to the detector. -/
structure CustomAgent where
  id : String
  name : String
  command : String
deriving Repr, DecidableEq

/-- Embedding of `CliDetectOptions`. -/
structure CliDetectOptions where
  includeWsl : Bool := false
deriving Repr, DecidableEq

/-- Outcome of one agent probe against the host: a resolved version string, a
thrown error, or a timeout. -/
inductive ProbeOutcome where
  | ok (version : String)
  | err
  | timeout
deriving Repr, DecidableEq

/-- Embedding of `AgentCliInfo`. -/
structure AgentCliInfo where
  id : String
  installed : Bool
  version : Option String
  environment : String
deriving Repr, DecidableEq

/-- Modelled from the spec: the fixed set of built-in agent identifiers probed
by `CliDetector` (`CliDetector.ts` is missing from the tree). -/
def builtinAgentIds : List String := ["claude", "codex", "gemini", "aider", "cursor"]

/-- Modelled from the spec: per-entry failure capture of one probe — a failed
or timed-out probe degrades to an uninstalled record and never propagates an
exception (spec §4.3 and §7, taxonomy item (2)). -/
def probedInfo (agentId environment : String) (outcome : ProbeOutcome) : AgentCliInfo :=
  match outcome with
  | .ok v => { id := agentId, installed := true, version := some v, environment := environment }
  | .err => { id := agentId, installed := false, version := none, environment := environment }
  | .timeout => { id := agentId, installed := false, version := none, environment := environment }

/-- Modelled from the spec: the probed identifier set is the union of the
built-in and the custom agents; a custom id colliding with a built-in one is
reported once, under the shared identifier (spec §4.3 de-duplication rule). -/
def detectAgentIds (customAgents : List CustomAgent) : List String :=
  builtinAgentIds ++
    (customAgents.map (fun a => a.id)).filter (fun i => !(builtinAgentIds.contains i))

/-- Modelled from the spec: `CliDetector.detectAll` (`CliDetector.ts` is
missing from the tree). Each agent is probed independently and its outcome is
captured per entry by `probedInfo`; when `includeWsl` is set on Windows, each
built-in agent is probed a second time through the WSL bridge, contributing a
record only when that probe succeeds. The function is total by construction:
no probe outcome can fail the aggregate. -/
def detectAll (host : Host) (probe wslProbe : String → ProbeOutcome)
    (customAgents : List CustomAgent) (options : CliDetectOptions) : List AgentCliInfo :=
  (detectAgentIds customAgents).map (fun a => probedInfo a "native" (probe a)) ++
    (if options.includeWsl && host.isWindows then
      builtinAgentIds.filterMap (fun a =>
        match wslProbe a with
        | .ok v => some { id := a, installed := true, version := some v, environment := "wsl" }
        | _ => none)
    else [])

/-! ## Concrete values used in witnesses and counterexamples -/

/-- Unix host used in concrete demonstrations. -/
def host0 : Host :=
  { isWindows := false
    procEnv := [("PATH", "/usr/bin:/bin"), ("HOME", "/home/user"), ("SHELL", "/bin/zsh")]
    homedir := "/home/user" }

/-- Options with every field defaulted. -/
def opts0 : TerminalCreateOptions := {}

/-- State after one `create` on an empty manager. -/
def st1 : MState := (create host0 opts0 initState).2

/-- The id returned by that `create`. -/
def id1 : String := (create host0 opts0 initState).1

/-- Options requesting an explicit zero geometry. -/
def optsZero : TerminalCreateOptions := { cols := some 0, rows := some 0 }

/-- Options requesting a negative geometry. -/
def optsNeg : TerminalCreateOptions := { cols := some (-3), rows := some (-7) }

/-- Options with an explicit non-empty shell. -/
def optsExplicit : TerminalCreateOptions :=
  { shell := some "/opt/tools/mysh", args := some ["-x"] }

/-- Options supplying an empty-string shell next to a structured selector. -/
def optsEmptyShell : TerminalCreateOptions :=
  { shell := some "", shellConfig := some { shellType := "zsh" } }

/-- Unix host with a marker variable in the inherited environment. -/
def host1 : Host :=
  { isWindows := false
    procEnv := [("PATH", "/usr/bin"), ("HOME", "/home/u"), ("BAZ", "qux")]
    homedir := "/home/u" }

/-- Options carrying one caller-supplied environment variable. -/
def opts1 : TerminalCreateOptions := { env := [("FOO", "bar")] }

/-- A probe environment in which every probe throws. -/
def pFail : String → ProbeOutcome := fun _ => ProbeOutcome.err

/-- A selector unknown to every platform table. -/
def cfgUnknown : ShellConfig := { shellType := "no-such-shell" }

/-- Reachability invariant of the manager: the exit callback has fired at most
once per id, the fired set agrees with the per-pty `exited` flags, every fired
id has a pty, and every pty id was minted from a counter value at most the
current one. -/
def ManagerInv (st : MState) : Prop :=
  (∀ id, st.exitNotified.count id ≤ 1) ∧
  (∀ id p, alistGet st.procs id = some p → (p.exited = true ↔ id ∈ st.exitNotified)) ∧
  (∀ id, id ∈ st.exitNotified → ∃ p, alistGet st.procs id = some p) ∧
  (∀ id, (∃ p, alistGet st.procs id = some p) → ∃ k, 0 < k ∧ k ≤ st.counter ∧ id = mkId k)

theorem decValFrom_eq (cs : List Char) : ∀ a, decValFrom cs a = a * 10 ^ cs.length + decValFrom cs 0 := by
  induction cs with
  | nil => intro a; simp [decValFrom]
  | cons c cs ih =>
    intro a
    simp only [decValFrom, List.length_cons]
    rw [ih (a * 10 + digitVal c), ih (0 * 10 + digitVal c)]
    ring

theorem digitVal_charOfDigit (d : Nat) (h : d < 10) : digitVal (charOfDigit d) = d := by
  interval_cases d <;> rfl

theorem decValFrom_toDecAux : ∀ (fuel n : Nat) (acc : List Char), n ≤ fuel →
    decValFrom (toDecAux fuel n acc) 0 = n * 10 ^ acc.length + decValFrom acc 0 := by
  intro fuel
  induction fuel with
  | zero =>
    intro n acc h
    have hn : n = 0 := Nat.le_zero.mp h
    subst hn
    simp [toDecAux]
  | succ fuel ih =>
    intro n acc h
    match n with
    | 0 => simp [toDecAux]
    | m + 1 =>
      rw [toDecAux]
      have hlt : (m + 1) / 10 < m + 1 := Nat.div_lt_self (Nat.succ_pos m) (by decide)
      have hle : (m + 1) / 10 ≤ fuel := by omega
      rw [ih _ _ hle]
      simp only [decValFrom, Nat.zero_mul, Nat.zero_add, List.length_cons]
      rw [decValFrom_eq, digitVal_charOfDigit _ (Nat.mod_lt _ (by decide))]
      have hqr : 10 * ((m + 1) / 10) + (m + 1) % 10 = m + 1 := Nat.div_add_mod (m + 1) 10
      set q := (m + 1) / 10 with hq
      set r := (m + 1) % 10 with hr
      rw [← hqr, pow_succ]
      ring

theorem decVal_decDigits (n : Nat) : decValFrom (decDigits n) 0 = n := by
  unfold decDigits
  by_cases h : n = 0
  · subst h; rfl
  · have := decValFrom_toDecAux n n [] (Nat.le_refl n)
    simpa [h] using this

theorem mkId_inj {m n : Nat} (h : mkId m = mkId n) : m = n := by
  have hd : decDigits m = decDigits n := by
    have h2 := congrArg String.data h
    simpa [mkId] using h2
  have h3 := congrArg (fun l => decValFrom l 0) hd
  simpa [decVal_decDigits] using h3

theorem mkId_inj_iff {m n : Nat} : mkId m = mkId n ↔ m = n :=
  ⟨mkId_inj, fun h => by rw [h]⟩

theorem alistGet_append {α : Type} (a b : List (String × α)) (k : String) :
    alistGet (a ++ b) k =
      match alistGet a k with
      | some v => some v
      | none => alistGet b k := by
  induction a with
  | nil => simp [alistGet]
  | cons p rest ih =>
    by_cases h : p.1 = k <;> simp [alistGet, h, ih]

theorem alistGet_upd {α : Type} (l : List (String × α)) (k j : String) (f : α → α) :
    alistGet (alistUpd l k f) j = if j = k then (alistGet l j).map f else alistGet l j := by
  induction l with
  | nil => simp [alistUpd, alistGet]
  | cons p rest ih =>
    simp only [alistUpd, List.map_cons] at ih ⊢
    by_cases hp : p.1 = k <;> by_cases hj : p.1 = j
    · have hjk : j = k := by rw [← hj, hp]
      simp [alistGet, hp, hj, hjk]
    · have hjk : ¬ j = k := fun hh => hj (by rw [hp, ← hh])
      have hkj : ¬ k = j := fun hh => hjk hh.symm
      simp [alistGet, hp, hj, hjk, hkj, ih]
    · have hjk : ¬ j = k := fun hh => hp (by rw [hj, hh])
      simp [alistGet, hp, hj, hjk]
    · simp [alistGet, hp, hj, ih]

theorem alistGet_mem {α : Type} (l : List (String × α)) (k : String) (v : α)
    (h : alistGet l k = some v) : (k, v) ∈ l := by
  induction l with
  | nil => simp [alistGet] at h
  | cons p rest ih =>
    simp only [alistGet] at h
    by_cases hp : p.1 = k
    · rw [if_pos hp] at h
      injection h with h2
      cases p
      simp only at hp h2
      subst hp
      subst h2
      exact List.mem_cons_self _ _
    · rw [if_neg hp] at h
      exact List.mem_cons_of_mem _ (ih h)

theorem jsGet_append (a b : List (String × String)) (k : String) :
    jsGet (a ++ b) k =
      match jsGet b k with
      | some v => some v
      | none => jsGet a k := by
  induction a with
  | nil =>
    simp only [List.nil_append, jsGet]
    cases jsGet b k <;> rfl
  | cons p rest ih =>
    simp only [List.cons_append, jsGet, List.append_eq]
    rw [ih]
    cases jsGet b k <;> rfl

theorem jsSetDedupAux_mem (l : List String) :
    ∀ (seen : List String) (x : String),
      x ∈ jsSetDedupAux seen l ↔ x ∈ l ∧ x ∉ seen := by
  induction l with
  | nil => simp [jsSetDedupAux]
  | cons y ys ih =>
    intro seen x
    simp only [jsSetDedupAux]
    by_cases hy : y ∈ seen
    · rw [if_pos hy, ih]
      constructor
      · rintro ⟨hx, hn⟩; exact ⟨List.mem_cons_of_mem _ hx, hn⟩
      · rintro ⟨hor, hn⟩
        rcases List.mem_cons.mp hor with rfl | hx
        · exact absurd hy hn
        · exact ⟨hx, hn⟩
    · rw [if_neg hy]
      constructor
      · intro hx
        rcases List.mem_cons.mp hx with rfl | hx2
        · exact ⟨List.mem_cons_self _ _, hy⟩
        · rw [ih] at hx2
          obtain ⟨h1, h2⟩ := hx2
          have h3 : x ∉ seen := fun hh => h2 (List.mem_cons_of_mem _ hh)
          exact ⟨List.mem_cons_of_mem _ h1, h3⟩
      · rintro ⟨hor, hn⟩
        rcases List.mem_cons.mp hor with rfl | hx
        · exact List.mem_cons_self _ _
        · by_cases hxy : x = y
          · subst hxy; exact List.mem_cons_self _ _
          · refine List.mem_cons_of_mem _ ?_
            rw [ih]
            refine ⟨hx, ?_⟩
            intro hh
            rcases List.mem_cons.mp hh with h4 | h4
            · exact hxy h4
            · exact hn h4

theorem jsSetDedupAux_nodup (l : List String) :
    ∀ seen : List String, (jsSetDedupAux seen l).Nodup := by
  induction l with
  | nil => intro seen; simp [jsSetDedupAux]
  | cons y ys ih =>
    intro seen
    simp only [jsSetDedupAux]
    by_cases hy : y ∈ seen
    · rw [if_pos hy]; exact ih seen
    · rw [if_neg hy]
      refine List.nodup_cons.mpr ⟨?_, ih _⟩
      intro hmem
      rw [jsSetDedupAux_mem] at hmem
      exact hmem.2 (List.mem_cons_self _ _)

theorem jsSetDedup_mem (l : List String) (x : String) : x ∈ jsSetDedup l ↔ x ∈ l := by
  rw [jsSetDedup, jsSetDedupAux_mem]
  simp

theorem jsSetDedup_nodup (l : List String) : (jsSetDedup l).Nodup :=
  jsSetDedupAux_nodup l []

theorem probedInfo_id (b e : String) (o : ProbeOutcome) : (probedInfo b e o).id = b := by
  cases o <;> rfl

theorem probedInfo_env (b e : String) (o : ProbeOutcome) :
    (probedInfo b e o).environment = e := by
  cases o <;> rfl

theorem detectShell_ne (host : Host) : detectShell host ≠ "" := by
  by_cases hw : host.isWindows
  · simp [detectShell, hw]
  · simp only [detectShell, hw, if_false, jsOr, Bool.false_eq_true]
    split
    · decide
    · assumption

/-- C1: evaluation of the code at the failing input. `PtyManager.resize`
forwards non-positive dimensions unvalidated: after `resize(id, 0, 0)` on a
live session, the session is still registered and its pseudo-terminal
geometry is 0×0, contradicting the reject-or-clamp requirement and the
geometry-always-≥1×1 invariant. -/
theorem c1_resize_zero_geometry :
    id1 ∈ (resize id1 0 0 st1).sessions ∧
    (alistGet (resize id1 0 0 st1).procs id1).map (fun p => (p.cols, p.rows)) = some (0, 0) := by
  decide

/-- C3: `write(id, data)` after `destroy(id)`, or with any id absent from the
registry, is a no-op: the manager state (including every process) is returned
unchanged, and the embedding is total, so no exception is thrown. -/
theorem c3_write_after_destroy_noop :
    (∀ (st : MState) (id data : String), write id data (destroy id st) = destroy id st) ∧
    (∀ (st : MState) (id data : String), id ∉ st.sessions → write id data st = st) := by
  have hw : ∀ (s : MState) (id data : String), id ∉ s.sessions → write id data s = s := by
    intro s id data hs
    simp [write, hs]
  refine ⟨?_, hw⟩
  intro st id data
  apply hw
  by_cases h : id ∈ st.sessions
  · simp [destroy, h, List.mem_filter]
  · simp [destroy, h]

/-- C3 witness: concrete instance of the hypothesis-carrying part. -/
theorem c3_witness :
    "pty-9" ∉ st1.sessions ∧ write "pty-9" "x" st1 = st1 :=
  ⟨by decide, c3_write_after_destroy_noop.2 st1 "pty-9" "x" (by decide)⟩

/-- C9: `destroy` is idempotent: destroying an already-absent session (in
particular immediately re-destroying) is a no-op that leaves the manager state
unchanged, so `destroy(id); destroy(id)` equals `destroy(id)`. -/
theorem c9_destroy_idempotent :
    (∀ (st : MState) (id : String), destroy id (destroy id st) = destroy id st) ∧
    (∀ (st : MState) (id : String), id ∉ st.sessions → destroy id st = st) := by
  have hd : ∀ (s : MState) (id : String), id ∉ s.sessions → destroy id s = s := by
    intro s id hs
    simp [destroy, hs]
  refine ⟨?_, hd⟩
  intro st id
  by_cases h : id ∈ st.sessions
  · apply hd
    simp [destroy, h, List.mem_filter]
  · rw [hd st id h]
    exact hd st id h

/-- C9 witness: concrete instance of the hypothesis-carrying part. -/
theorem c9_witness :
    "pty-9" ∉ st1.sessions ∧ destroy "pty-9" st1 = st1 :=
  ⟨by decide, c9_destroy_idempotent.2 st1 "pty-9" (by decide)⟩

/-- C10: in `create`, a requested geometry dimension of 0 is treated exactly
like an absent one (the JS `options.cols || 80` and `options.rows || 24`
defaults), so a zero never reaches the pty through `create`, while negative
dimensions pass through unchanged. -/
theorem c10_geometry_defaults :
    ∀ (host : Host) (options : TerminalCreateOptions),
      ((options.cols = none ∨ options.cols = some 0) → (spawnedProc host options).cols = 80) ∧
      (∀ c : Int, options.cols = some c → c ≠ 0 → (spawnedProc host options).cols = c) ∧
      ((options.rows = none ∨ options.rows = some 0) → (spawnedProc host options).rows = 24) ∧
      (∀ r : Int, options.rows = some r → r ≠ 0 → (spawnedProc host options).rows = r) := by
  intro host options
  refine ⟨?_, ?_, ?_, ?_⟩
  · rintro (h | h) <;> simp [spawnedProc, jsOrI, h]
  · intro c hc hne
    simp [spawnedProc, jsOrI, hc, hne]
  · rintro (h | h) <;> simp [spawnedProc, jsOrI, h]
  · intro r hr hne
    simp [spawnedProc, jsOrI, hr, hne]

/-- C10 witness: zero geometry defaults to 80×24, negative geometry passes
through. -/
theorem c10_witness :
    (spawnedProc host0 optsZero).cols = 80 ∧ (spawnedProc host0 optsZero).rows = 24 ∧
    (spawnedProc host0 optsNeg).cols = -3 ∧ (spawnedProc host0 optsNeg).rows = -7 :=
  ⟨(c10_geometry_defaults host0 optsZero).1 (Or.inr rfl),
   (c10_geometry_defaults host0 optsZero).2.2.1 (Or.inr rfl),
   (c10_geometry_defaults host0 optsNeg).2.1 (-3) rfl (by decide),
   (c10_geometry_defaults host0 optsNeg).2.2.2 (-7) rfl (by decide)⟩

theorem knownShellTable_shell_ne (host : Host) :
    ∀ p ∈ knownShellTable host, p.2.shell ≠ "" := by
  intro p hp
  by_cases hw : host.isWindows
  · simp only [knownShellTable, hw, if_true, List.mem_cons, List.not_mem_nil, or_false] at hp
    rcases hp with rfl | rfl | rfl | rfl | rfl | rfl <;> decide
  · simp only [knownShellTable, hw, if_false, Bool.false_eq_true, List.mem_cons,
      List.not_mem_nil, or_false] at hp
    rcases hp with rfl | rfl | rfl | rfl | rfl | rfl
    · exact detectShell_ne host
    all_goals decide

/-- C4: for every platform and every selector, `resolveShellConfig` returns a
non-empty executable path, and an unknown selector (with no truthy custom
path) never fails: it degrades to the platform default shell. Totality of the
embedding reflects that no selector throws. -/
theorem c4_resolver_total_nonempty :
    ∀ (host : Host) (cfg : ShellConfig),
      (resolveShellConfig host cfg).shell ≠ "" ∧
      ((cfg.customShellPath = none ∨ cfg.customShellPath = some "") →
        alistGet (knownShellTable host) cfg.shellType = none →
        resolveShellConfig host cfg = defaultShellSpec host) := by
  intro host cfg
  have hsel : (resolveSelector host cfg).shell ≠ "" := by
    unfold resolveSelector
    cases hg : alistGet (knownShellTable host) cfg.shellType with
    | none => exact detectShell_ne host
    | some sp => exact knownShellTable_shell_ne host _ (alistGet_mem _ _ _ hg)
  constructor
  · cases hc : cfg.customShellPath with
    | none =>
      have hshow : resolveShellConfig host cfg = resolveSelector host cfg := by
        unfold resolveShellConfig
        rw [hc]
      rw [hshow]
      exact hsel
    | some p =>
      have hshow : resolveShellConfig host cfg =
          if p = "" then resolveSelector host cfg
          else { shell := p, args := cfg.customShellArgs.getD [], isWsl := false } := by
        unfold resolveShellConfig
        rw [hc]
      rw [hshow]
      by_cases hp : p = ""
      · rw [if_pos hp]
        exact hsel
      · rw [if_neg hp]
        exact hp
  · intro hfalsy hnone
    rcases hfalsy with h | h <;>
      simp [resolveShellConfig, resolveSelector, h, hnone]

/-- C4 witness: an unknown selector resolves to the non-empty platform
default. -/
theorem c4_witness :
    (resolveShellConfig host0 cfgUnknown).shell ≠ "" ∧
    resolveShellConfig host0 cfgUnknown = defaultShellSpec host0 :=
  ⟨(c4_resolver_total_nonempty host0 cfgUnknown).1,
   (c4_resolver_total_nonempty host0 cfgUnknown).2 (Or.inl rfl) (by decide)⟩

/-- C6 (amended): launch-command priority of `create`: a JS-truthy (non-empty)
`options.shell` is used verbatim with the supplied arguments; otherwise a
supplied `shellConfig` is resolved through the shell resolver; otherwise the
ambient platform default shell is used. (As literally stated the claim fails
for the supplied-but-empty shell, see the counterexample.) -/
theorem c6_shell_priority :
    ∀ (host : Host) (options : TerminalCreateOptions),
      (∀ s, options.shell = some s → s ≠ "" →
        (spawnedProc host options).shell = s ∧
        (spawnedProc host options).args = options.args.getD []) ∧
      ((options.shell = none ∨ options.shell = some "") →
        (∀ cfg, options.shellConfig = some cfg →
          (spawnedProc host options).shell = (resolveShellConfig host cfg).shell ∧
          (spawnedProc host options).args = (resolveShellConfig host cfg).args) ∧
        (options.shellConfig = none →
          (spawnedProc host options).shell = detectShell host ∧
          (spawnedProc host options).args = options.args.getD [])) := by
  intro host options
  constructor
  · intro s hs hne
    constructor <;> simp [spawnedProc, chooseShell, hs, hne]
  · intro hshell
    constructor
    · intro cfg hcfg
      rcases hshell with h | h <;>
        exact ⟨by simp [spawnedProc, chooseShell, chooseShellNoExplicit, h, hcfg],
               by simp [spawnedProc, chooseShell, chooseShellNoExplicit, h, hcfg]⟩
    · intro hcfg
      rcases hshell with h | h <;>
        exact ⟨by simp [spawnedProc, chooseShell, chooseShellNoExplicit, h, hcfg],
               by simp [spawnedProc, chooseShell, chooseShellNoExplicit, h, hcfg]⟩

/-- C6 counterexample to the claim as stated: `options.shell` supplied as the
empty string is JS-falsy in `if (options.shell)`, so it is not used verbatim —
the structured selector branch wins instead. -/
theorem c6_counterexample :
    optsEmptyShell.shell = some "" ∧
    (spawnedProc host0 optsEmptyShell).shell = "/bin/zsh" := by
  decide

/-- C6 witness for the amended claim: an explicit non-empty shell is used
verbatim; with nothing supplied the ambient default is used. -/
theorem c6_witness :
    (spawnedProc host0 optsExplicit).shell = "/opt/tools/mysh" ∧
    (spawnedProc host0 optsExplicit).args = ["-x"] ∧
    (spawnedProc host0 opts0).shell = detectShell host0 :=
  ⟨((c6_shell_priority host0 optsExplicit).1 "/opt/tools/mysh" rfl (by decide)).1,
   ((c6_shell_priority host0 optsExplicit).1 "/opt/tools/mysh" rfl (by decide)).2,
   (((c6_shell_priority host0 opts0).2 (Or.inl rfl)).2 rfl).1⟩

theorem spawnedProc_env_lookup (host : Host) (options : TerminalCreateOptions) (k : String) :
    jsGet (spawnedProc host options).env k =
      match jsGet [("PATH", getEnhancedPath host), ("TERM", "xterm-256color"),
          ("COLORTERM", "truecolor")] k with
      | some v => some v
      | none =>
        match jsGet options.env k with
        | some v => some v
        | none => jsGet host.procEnv k := by
  have h1 : (spawnedProc host options).env =
      (host.procEnv ++ options.env) ++ [("PATH", getEnhancedPath host),
        ("TERM", "xterm-256color"), ("COLORTERM", "truecolor")] := by
    simp [spawnedProc, List.append_assoc]
  rw [h1, jsGet_append, jsGet_append]

/-- C7: the environment handed to the spawned process is the inherited process
environment with the caller-supplied variables merged on top (later spread
keys win), `TERM` and `COLORTERM` force-set regardless of caller input, and
`PATH` replaced by the fixed per-platform tool directories prepended — first
occurrences kept, duplicates dropped — to the inherited search path. -/
theorem c7_environment :
    ∀ (host : Host) (options : TerminalCreateOptions),
      jsGet (spawnedProc host options).env "TERM" = some "xterm-256color" ∧
      jsGet (spawnedProc host options).env "COLORTERM" = some "truecolor" ∧
      jsGet (spawnedProc host options).env "PATH" = some (getEnhancedPath host) ∧
      getEnhancedPath host = String.intercalate (pathDelim host)
        (jsSetDedup (additionalPaths host ++
          (envStr host.procEnv "PATH").splitOn (pathDelim host))) ∧
      (jsSetDedup (additionalPaths host ++
        (envStr host.procEnv "PATH").splitOn (pathDelim host))).Nodup ∧
      (∀ x, x ∈ jsSetDedup (additionalPaths host ++
          (envStr host.procEnv "PATH").splitOn (pathDelim host)) ↔
        x ∈ additionalPaths host ∨
        x ∈ (envStr host.procEnv "PATH").splitOn (pathDelim host)) ∧
      (∀ k, k ≠ "TERM" → k ≠ "COLORTERM" → k ≠ "PATH" →
        jsGet (spawnedProc host options).env k =
          match jsGet options.env k with
          | some v => some v
          | none => jsGet host.procEnv k) := by
  intro host options
  refine ⟨?_, ?_, ?_, rfl, jsSetDedup_nodup _, ?_, ?_⟩
  · rw [spawnedProc_env_lookup]
    simp [jsGet]
  · rw [spawnedProc_env_lookup]
    simp [jsGet]
  · rw [spawnedProc_env_lookup]
    simp [jsGet]
  · intro x
    rw [jsSetDedup_mem, List.mem_append]
  · intro k h1 h2 h3
    rw [spawnedProc_env_lookup]
    have htail : jsGet [("PATH", getEnhancedPath host), ("TERM", "xterm-256color"),
        ("COLORTERM", "truecolor")] k = none := by
      simp [jsGet, Ne.symm h1, Ne.symm h2, Ne.symm h3]
    rw [htail]

/-- C7 witness: concrete host and options, with the generic-key part of the
statement instantiated at a caller-supplied key and an inherited-only key. -/
theorem c7_witness :
    jsGet (spawnedProc host1 opts1).env "TERM" = some "xterm-256color" ∧
    jsGet (spawnedProc host1 opts1).env "FOO" = some "bar" ∧
    jsGet (spawnedProc host1 opts1).env "BAZ" = some "qux" := by
  refine ⟨(c7_environment host1 opts1).1, ?_, ?_⟩
  · have h := (c7_environment host1 opts1).2.2.2.2.2.2 "FOO" (by decide) (by decide) (by decide)
    rw [h]
    decide
  · have h := (c7_environment host1 opts1).2.2.2.2.2.2 "BAZ" (by decide) (by decide) (by decide)
    rw [h]
    decide

theorem filterNative_congr (p q : String → ProbeOutcome) (a : String)
    (hpq : ∀ b, b ≠ a → p b = q b) :
    ∀ ids : List String,
      (ids.map (fun b => probedInfo b "native" (p b))).filter (fun i => !(i.id == a)) =
      (ids.map (fun b => probedInfo b "native" (q b))).filter (fun i => !(i.id == a)) := by
  intro ids
  induction ids with
  | nil => rfl
  | cons b bs ih =>
    simp only [List.map_cons, List.filter_cons, probedInfo_id]
    by_cases hb : b = a
    · subst hb
      simp only [beq_self_eq_true, Bool.not_true, Bool.false_eq_true, if_false]
      exact ih
    · have hcond : (b == a) = false := by simp [hb]
      rw [hpq b hb]
      simp only [hcond, Bool.not_false, if_true]
      rw [ih]

/-- C5: partial-failure isolation of `detectAll`: a failing or timing-out
probe for one agent degrades that agent's native entry to uninstalled, and
every other agent's entry is unaffected by what that probe did; the aggregate
is total, so no probe outcome propagates an exception to the caller. -/
theorem c5_detect_isolation :
    ∀ (host : Host) (wslProbe : String → ProbeOutcome) (customAgents : List CustomAgent)
      (options : CliDetectOptions) (p q : String → ProbeOutcome) (a : String),
      (∀ b, b ≠ a → p b = q b) →
      (p a = ProbeOutcome.err ∨ p a = ProbeOutcome.timeout) →
      (∀ info, info ∈ detectAll host p wslProbe customAgents options →
        info.id = a → info.environment = "native" →
        info.installed = false ∧ info.version = none) ∧
      (detectAll host p wslProbe customAgents options).filter (fun i => !(i.id == a)) =
      (detectAll host q wslProbe customAgents options).filter (fun i => !(i.id == a)) := by
  intro host wslProbe customAgents options p q a hpq hfail
  constructor
  · intro info hmem hid henv
    unfold detectAll at hmem
    rw [List.mem_append] at hmem
    rcases hmem with hmem | hmem
    · rw [List.mem_map] at hmem
      obtain ⟨b, hb, rfl⟩ := hmem
      rw [probedInfo_id] at hid
      subst hid
      rcases hfail with h | h <;> rw [h] <;> exact ⟨rfl, rfl⟩
    · by_cases hw : options.includeWsl && host.isWindows
      · rw [if_pos hw, List.mem_filterMap] at hmem
        obtain ⟨b, _, hb2⟩ := hmem
        cases ho : wslProbe b <;> rw [ho] at hb2
        · injection hb2 with hb3
          rw [← hb3] at henv
          simp at henv
        · simp at hb2
        · simp at hb2
      · rw [if_neg hw] at hmem
        simp at hmem
  · unfold detectAll
    rw [List.filter_append, List.filter_append,
      filterNative_congr p q a hpq (detectAgentIds customAgents)]

/-- C5 witness: an all-failing probe environment yields uninstalled native
entries and an unchanged remainder. -/
theorem c5_witness :
    (∀ info, info ∈ detectAll host0 pFail pFail [] {} →
      info.id = "claude" → info.environment = "native" →
      info.installed = false ∧ info.version = none) ∧
    (detectAll host0 pFail pFail [] {}).filter (fun i => !(i.id == "claude")) =
    (detectAll host0 pFail pFail [] {}).filter (fun i => !(i.id == "claude")) :=
  c5_detect_isolation host0 pFail [] {} pFail pFail "claude" (fun _ _ => rfl) (Or.inl rfl)

theorem alistGet_append_left {α : Type} (a b : List (String × α)) (j : String) (v : α)
    (h : alistGet a j = some v) : alistGet (a ++ b) j = some v := by
  rw [alistGet_append, h]

theorem alistGet_append_right {α : Type} (a b : List (String × α)) (j : String)
    (h : alistGet a j = none) : alistGet (a ++ b) j = alistGet b j := by
  rw [alistGet_append, h]

theorem inv_procsUpd (st : MState) (k : String) (f : PtyProc → PtyProc)
    (hf : ∀ p, (f p).exited = p.exited) (ss : List String) (h : ManagerInv st) :
    ManagerInv { st with procs := alistUpd st.procs k f, sessions := ss } := by
  obtain ⟨h1, h2, h3, h4⟩ := h
  refine ⟨h1, ?_, ?_, ?_⟩
  · intro j p hp
    rw [alistGet_upd] at hp
    by_cases hj : j = k
    · rw [if_pos hj] at hp
      cases hg : alistGet st.procs j with
      | none => rw [hg] at hp; simp at hp
      | some p0 =>
        rw [hg, Option.map_some'] at hp
        injection hp with he
        rw [← he, hf]
        exact h2 j p0 hg
    · rw [if_neg hj] at hp
      exact h2 j p hp
  · intro j hj
    obtain ⟨p, hp⟩ := h3 j hj
    rw [alistGet_upd]
    by_cases hjk : j = k
    · rw [if_pos hjk, hp]
      exact ⟨f p, rfl⟩
    · rw [if_neg hjk]
      exact ⟨p, hp⟩
  · intro j hj
    obtain ⟨p, hp⟩ := hj
    rw [alistGet_upd] at hp
    apply h4 j
    by_cases hjk : j = k
    · rw [if_pos hjk] at hp
      cases hg : alistGet st.procs j with
      | none => rw [hg] at hp; simp at hp
      | some p0 => exact ⟨p0, rfl⟩
    · rw [if_neg hjk] at hp
      exact ⟨p, hp⟩

theorem inv_write (id data : String) (st : MState) (h : ManagerInv st) :
    ManagerInv (write id data st) := by
  unfold write
  split
  · exact inv_procsUpd st id
      (fun p => { p with written := p.written ++ [data] }) (fun p => rfl) st.sessions h
  · exact h

theorem inv_resize (id : String) (c r : Int) (st : MState) (h : ManagerInv st) :
    ManagerInv (resize id c r st) := by
  unfold resize
  split
  · exact inv_procsUpd st id
      (fun p => { p with cols := c, rows := r }) (fun p => rfl) st.sessions h
  · exact h

theorem inv_destroy (id : String) (st : MState) (h : ManagerInv st) :
    ManagerInv (destroy id st) := by
  unfold destroy
  split
  · exact inv_procsUpd st id
      (fun p => { p with killed := true }) (fun p => rfl)
      (st.sessions.filter (fun s => !(s == id))) h
  · exact h

theorem inv_foldl_destroy (ids : List String) :
    ∀ st : MState, ManagerInv st →
      ManagerInv (ids.foldl (fun s i => destroy i s) st) := by
  induction ids with
  | nil => intro st h; exact h
  | cons i is ih =>
    intro st h
    rw [List.foldl_cons]
    exact ih _ (inv_destroy i st h)

theorem inv_create (host : Host) (options : TerminalCreateOptions) (st : MState)
    (h : ManagerInv st) : ManagerInv (create host options st).2 := by
  obtain ⟨h1, h2, h3, h4⟩ := h
  have hfresh : alistGet st.procs (mkId (st.counter + 1)) = none := by
    cases hg : alistGet st.procs (mkId (st.counter + 1)) with
    | none => rfl
    | some p =>
      exfalso
      obtain ⟨k, hk0, hkle, hkeq⟩ := h4 (mkId (st.counter + 1)) ⟨p, hg⟩
      have := mkId_inj hkeq
      omega
  dsimp only [create]
  refine ⟨h1, ?_, ?_, ?_⟩
  · intro j p hp
    cases hg : alistGet st.procs j with
    | some p0 =>
      rw [alistGet_append_left _ _ _ _ hg] at hp
      injection hp with he
      rw [← he]
      exact h2 j p0 hg
    | none =>
      rw [alistGet_append_right _ _ _ hg] at hp
      by_cases hj : mkId (st.counter + 1) = j
      · have hnotin : j ∉ st.exitNotified := by
          intro hmem
          obtain ⟨pp, hpp⟩ := h3 j hmem
          rw [← hj, hfresh] at hpp
          cases hpp
        simp only [alistGet, if_pos hj] at hp
        injection hp with he
        rw [← he]
        show (spawnedProc host options).exited = true ↔ j ∈ st.exitNotified
        simp [spawnedProc, hnotin]
      · simp only [alistGet, if_neg hj] at hp
        cases hp
  · intro j hj
    obtain ⟨p, hp⟩ := h3 j hj
    exact ⟨p, alistGet_append_left _ _ _ _ hp⟩
  · intro j hj
    obtain ⟨p, hp⟩ := hj
    cases hg : alistGet st.procs j with
    | some p0 =>
      obtain ⟨k, hk0, hkle, hkeq⟩ := h4 j ⟨p0, hg⟩
      exact ⟨k, hk0, Nat.le_succ_of_le hkle, hkeq⟩
    | none =>
      rw [alistGet_append_right _ _ _ hg] at hp
      by_cases hj2 : mkId (st.counter + 1) = j
      · exact ⟨st.counter + 1, Nat.succ_pos _, Nat.le_refl _, hj2.symm⟩
      · simp only [alistGet, if_neg hj2] at hp
        cases hp

theorem inv_osExit (id : String) (st : MState) (h : ManagerInv st) :
    ManagerInv (osExit id st) := by
  obtain ⟨h1, h2, h3, h4⟩ := h
  unfold osExit
  cases hg : alistGet st.procs id with
  | none => exact ⟨h1, h2, h3, h4⟩
  | some p =>
    dsimp only
    by_cases hex : p.exited = true
    · rw [if_pos hex]
      exact ⟨h1, h2, h3, h4⟩
    · rw [if_neg hex]
      have hnotin : id ∉ st.exitNotified := fun hmem => hex ((h2 id p hg).mpr hmem)
      refine ⟨?_, ?_, ?_, ?_⟩
      · intro j
        rw [List.count_append]
        by_cases hj : j = id
        · subst hj
          rw [List.count_eq_zero.mpr hnotin]
          simp
        · have hz : List.count j [id] = 0 := by
            rw [List.count_eq_zero]
            simp [hj]
          rw [hz]
          simpa using h1 j
      · intro j q hq
        rw [alistGet_upd] at hq
        by_cases hj : j = id
        · subst hj
          rw [if_pos rfl, hg, Option.map_some'] at hq
          injection hq with he
          rw [← he]
          simp [List.mem_append]
        · rw [if_neg hj] at hq
          rw [h2 j q hq]
          simp [List.mem_append, hj]
      · intro j hj
        rw [List.mem_append] at hj
        rw [alistGet_upd]
        rcases hj with hj | hj
        · obtain ⟨q, hq⟩ := h3 j hj
          by_cases hjk : j = id
          · rw [if_pos hjk, hq]
            exact ⟨_, rfl⟩
          · rw [if_neg hjk]
            exact ⟨q, hq⟩
        · simp only [List.mem_singleton] at hj
          subst hj
          rw [if_pos rfl, hg]
          exact ⟨_, rfl⟩
      · intro j hj
        obtain ⟨q, hq⟩ := hj
        rw [alistGet_upd] at hq
        apply h4 j
        by_cases hjk : j = id
        · exact ⟨p, by rw [hjk]; exact hg⟩
        · rw [if_neg hjk] at hq
          exact ⟨q, hq⟩

theorem inv_step (host : Host) (st : MState) (op : Op) (h : ManagerInv st) :
    ManagerInv (step host st op) := by
  cases op with
  | create options => exact inv_create host options st h
  | write id data => exact inv_write id data st h
  | resize id c r => exact inv_resize id c r st h
  | destroy id => exact inv_destroy id st h
  | destroyAll => exact inv_foldl_destroy st.sessions st h
  | osExit id => exact inv_osExit id st h

theorem inv_initState : ManagerInv initState := by
  refine ⟨fun j => by simp [initState], fun j p hp => ?_, fun j hj => ?_, fun j hj => ?_⟩
  · simp [initState, alistGet] at hp
  · simp [initState] at hj
  · obtain ⟨p, hp⟩ := hj
    simp [initState, alistGet] at hp

theorem inv_runOps (host : Host) : ∀ (ops : List Op) (st : MState),
    ManagerInv st → ManagerInv (runOps host ops st).1 := by
  intro ops
  induction ops with
  | nil => intro st h; exact h
  | cons op rest ih =>
    intro st h
    have h2 := ih (step host st op) (inv_step host st op h)
    cases op <;> simpa [runOps] using h2

/-- C2: over every interleaving of API calls and OS exit-event deliveries on a
manager started empty, each session's `onExit` callback is invoked at most
once — `destroy` itself never invokes it, and the single OS exit event fires
the handler exactly once whether it comes before or after a `destroy`. -/
theorem c2_exit_at_most_once :
    ∀ (host : Host) (ops : List Op) (id : String),
      ((runOps host ops initState).1).exitNotified.count id ≤ 1 :=
  fun host ops id => (inv_runOps host ops initState inv_initState).1 id

theorem destroy_counter (i : String) (s : MState) : (destroy i s).counter = s.counter := by
  unfold destroy
  split <;> rfl

theorem foldl_destroy_counter (ids : List String) :
    ∀ s : MState, (ids.foldl (fun x i => destroy i x) s).counter = s.counter := by
  induction ids with
  | nil => intro s; rfl
  | cons i is ih =>
    intro s
    rw [List.foldl_cons, ih, destroy_counter]

theorem step_counter_le (host : Host) (st : MState) (op : Op) :
    st.counter ≤ (step host st op).counter := by
  cases op with
  | create options => exact Nat.le_succ _
  | write id data =>
    show st.counter ≤ (write id data st).counter
    unfold write
    split <;> exact Nat.le_refl _
  | resize id c r =>
    show st.counter ≤ (resize id c r st).counter
    unfold resize
    split <;> exact Nat.le_refl _
  | destroy id =>
    rw [show (step host st (Op.destroy id)).counter = (destroy id st).counter from rfl,
      destroy_counter]
  | destroyAll =>
    rw [show (step host st Op.destroyAll).counter =
        (st.sessions.foldl (fun x i => destroy i x) st).counter from rfl,
      foldl_destroy_counter]
  | osExit id =>
    show st.counter ≤ (osExit id st).counter
    unfold osExit
    cases alistGet st.procs id with
    | none => exact Nat.le_refl _
    | some p =>
      dsimp only
      split <;> exact Nat.le_refl _

theorem runOps_ids_spec (host : Host) : ∀ (ops : List Op) (st : MState) (id : String),
    id ∈ (runOps host ops st).2 → ∃ k, st.counter < k ∧ id = mkId k := by
  intro ops
  induction ops with
  | nil =>
    intro st id h
    simp [runOps] at h
  | cons op rest ih =>
    intro st id h
    cases op with
    | create options =>
      simp only [runOps] at h
      rcases List.mem_cons.mp h with rfl | h2
      · exact ⟨st.counter + 1, Nat.lt_succ_self _, rfl⟩
      · obtain ⟨k, hk, he⟩ := ih _ id h2
        have hc : (step host st (Op.create options)).counter = st.counter + 1 := rfl
        rw [hc] at hk
        exact ⟨k, by omega, he⟩
    | write i d =>
      obtain ⟨k, hk, he⟩ := ih _ id (by simpa [runOps] using h)
      exact ⟨k, lt_of_le_of_lt (step_counter_le host st _) hk, he⟩
    | resize i c r =>
      obtain ⟨k, hk, he⟩ := ih _ id (by simpa [runOps] using h)
      exact ⟨k, lt_of_le_of_lt (step_counter_le host st _) hk, he⟩
    | destroy i =>
      obtain ⟨k, hk, he⟩ := ih _ id (by simpa [runOps] using h)
      exact ⟨k, lt_of_le_of_lt (step_counter_le host st _) hk, he⟩
    | destroyAll =>
      obtain ⟨k, hk, he⟩ := ih _ id (by simpa [runOps] using h)
      exact ⟨k, lt_of_le_of_lt (step_counter_le host st _) hk, he⟩
    | osExit i =>
      obtain ⟨k, hk, he⟩ := ih _ id (by simpa [runOps] using h)
      exact ⟨k, lt_of_le_of_lt (step_counter_le host st _) hk, he⟩

/-- C8: across every operation sequence on a manager, the ids returned by the
`create` calls are pairwise distinct — the counter behind `pty-${++counter}`
only ever grows, so an id is never reused even after its session was
destroyed. -/
theorem c8_create_ids_distinct :
    ∀ (host : Host) (st : MState) (ops : List Op), ((runOps host ops st).2).Nodup := by
  intro host
  have main : ∀ (ops : List Op) (st : MState), ((runOps host ops st).2).Nodup := by
    intro ops
    induction ops with
    | nil => intro st; simp [runOps]
    | cons op rest ih =>
      intro st
      cases op with
      | create options =>
        simp only [runOps]
        refine List.nodup_cons.mpr ⟨?_, ih _⟩
        intro hmem
        obtain ⟨k, hk, he⟩ := runOps_ids_spec host rest _ _ hmem
        have hc : (step host st (Op.create options)).counter = st.counter + 1 := rfl
        rw [hc] at hk
        have h1 : (create host options st).1 = mkId (st.counter + 1) := rfl
        rw [h1] at he
        have := mkId_inj he
        omega
      | write i d => simpa [runOps] using ih _
      | resize i c r => simpa [runOps] using ih _
      | destroy i => simpa [runOps] using ih _
      | destroyAll => simpa [runOps] using ih _
      | osExit i => simpa [runOps] using ih _
  exact fun st ops => main ops st
